import Mathlib

/-!
Verification of the framed multiplexing protocol, the PQC TLS wrapper policy
and the endpoint engines of the reverse-tunnel repository, by a shallow
embedding of the relevant Go and C functions into Lean.

Bytes are modelled as natural numbers below 256, byte sequences as lists,
machine integers as natural numbers or integers with explicit reductions
modulo a power of two where the source truncates, and fallible operations
as Option-valued functions.
-/

namespace NgpMtls

/-! ## Frame codec (internal/proto/proto.go) -/

/-- Big-endian serialization of a 32-bit value, as written by
binary.BigEndian.PutUint32: four bytes, most significant first.  The
reductions modulo 256 mirror the byte extraction performed by the encoder. -/
def be32 (n : Nat) : List Nat :=
  [n / 2 ^ 24 % 256, n / 2 ^ 16 % 256, n / 2 ^ 8 % 256, n % 256]

/-- Big-endian deserialization of four bytes into a 32-bit value, as read by
binary.BigEndian.Uint32. -/
def fromBe32 (b0 b1 b2 b3 : Nat) : Nat :=
  ((b0 * 256 + b1) * 256 + b2) * 256 + b3

/-- Frame is the protocol frame of internal/proto/proto.go: a one-byte type
tag, a 32-bit connection (stream) identifier and an opaque payload. -/
structure Frame where
  ty : Nat
  connID : Nat
  payload : List Nat
deriving DecidableEq

/-- FrameTypeNEW_CONN tags a new-connection announcement (server to client). -/
def FrameTypeNEW_CONN : Nat := 1

/-- FrameTypeDATA tags a payload-carrying frame (both directions). -/
def FrameTypeDATA : Nat := 2

/-- FrameTypeCLOSE tags a stream-close frame (both directions). -/
def FrameTypeCLOSE : Nat := 3

/-- FrameTypeINIT tags the client configuration frame (client to server). -/
def FrameTypeINIT : Nat := 4

/-- EncodeFrame embeds proto.EncodeFrame: the Go function allocates a buffer
of length 1 + 4 + 4 + len(payload), writes byte(f.Type), the big-endian
ConnID, the big-endian uint32(len(payload)) and then copies the payload.
The reduction modulo 256 embeds the byte cast of the type tag and be32
embeds the uint32 truncation of the payload length. -/
def EncodeFrame (f : Frame) : List Nat :=
  f.ty % 256 :: (be32 f.connID ++ be32 f.payload.length ++ f.payload)

/-- DecodeFrame embeds proto.DecodeFrame: it reads a 9-byte header (one type
byte, four ConnID bytes, four payload-length bytes) and then exactly
payload-length payload bytes.  The io.Reader is modelled as the input list;
a premature end of stream (io.ReadFull failing) is modelled as none.  The
unread remainder of the input is returned alongside the frame. -/
def DecodeFrame : List Nat → Option (Frame × List Nat)
  | t :: b0 :: b1 :: b2 :: b3 :: l0 :: l1 :: l2 :: l3 :: rest =>
    let plen := fromBe32 l0 l1 l2 l3
    if plen ≤ rest.length then
      some (⟨t, fromBe32 b0 b1 b2 b3, rest.take plen⟩, rest.drop plen)
    else
      none
  | _ => none

/-! ## InitConfig codec (internal/proto/proto.go)

EncodeInitConfig prints the remote port in decimal followed by a colon and
the literal local address; DecodeInitConfig splits at the first colon and
parses the port with strconv.Atoi.  Texts are modelled as lists of
characters and the Go int as a mathematical integer whose 64-bit range is
enforced where strconv.Atoi enforces it. -/

/-- Decimal digit test, as used by strconv when scanning a number. -/
def isDigitCh (c : Char) : Bool :=
  decide (48 ≤ c.toNat) && decide (c.toNat ≤ 57)

/-- Numeric value of a decimal digit character. -/
def digitVal (c : Char) : Nat := c.toNat - 48

/-- Character for a single decimal digit, as produced by the formatter. -/
def natDigitChar (n : Nat) : Char :=
  match n with
  | 0 => '0'
  | 1 => '1'
  | 2 => '2'
  | 3 => '3'
  | 4 => '4'
  | 5 => '5'
  | 6 => '6'
  | 7 => '7'
  | 8 => '8'
  | _ => '9'

/-- Decimal representation of a natural number, most significant digit
first, as produced by the %d verb of fmt.Sprintf. -/
def natToChars (n : Nat) : List Char :=
  if _h : n < 10 then [natDigitChar n]
  else natToChars (n / 10) ++ [natDigitChar (n % 10)]
termination_by n
decreasing_by exact Nat.div_lt_self (by omega) (by omega)

/-- Positional value of a digit string, as accumulated by strconv.ParseInt:
the running value is multiplied by ten and the next digit added. -/
def charsToNat (cs : List Char) : Nat :=
  cs.foldl (fun a c => a * 10 + digitVal c) 0

/-- Digit-run scan of strconv.ParseInt after sign stripping: the text must
be a nonempty run of decimal digits. -/
def parseNatDigits (cs : List Char) : Option Nat :=
  if cs.isEmpty then none
  else if cs.all isDigitCh then some (charsToNat cs)
  else none

/-- goAtoi embeds strconv.Atoi, that is ParseInt(s, 10, 0) with the 64-bit
int of the target platform: an optional single sign, a nonempty digit run,
and a range check against the 64-bit two's-complement interval.  Failure
(syntax or range) is modelled as none, as DecodeInitConfig only inspects
whether the error is nil. -/
def goAtoi (cs : List Char) : Option Int :=
  match cs with
  | [] => none
  | c :: rest =>
    if c = '-' then
      match parseNatDigits rest with
      | none => none
      | some n => if n ≤ 2 ^ 63 then some (-(n : Int)) else none
    else
      match parseNatDigits (if c = '+' then rest else c :: rest) with
      | none => none
      | some n => if n ≤ 2 ^ 63 - 1 then some ((n : Int)) else none

/-- splitFirstColon embeds strings.SplitN(s, ":", 2): none when the
separator does not occur, otherwise the text before the first colon and the
text after it, the latter taken verbatim. -/
def splitFirstColon : List Char → Option (List Char × List Char)
  | [] => none
  | c :: rest =>
    if c = ':' then some ([], rest)
    else (splitFirstColon rest).map fun p => (c :: p.1, p.2)

/-- Decimal representation of a Go int by the %d verb: a minus sign for
negative values followed by the digits of the magnitude. -/
def intToChars (i : Int) : List Char :=
  if i < 0 then '-' :: natToChars (-i).toNat else natToChars i.toNat

/-- InitConfig mirrors proto.InitConfig: a remote port typed as Go int and
a local address string. -/
structure InitConfig where
  remotePort : Int
  localAddr : List Char
deriving DecidableEq

/-- EncodeInitConfig embeds proto.EncodeInitConfig: decimal port, one
colon, then the literal local address bytes. -/
def EncodeInitConfig (c : InitConfig) : List Char :=
  intToChars c.remotePort ++ ':' :: c.localAddr

/-- DecodeInitConfig embeds proto.DecodeInitConfig: split at the first
colon (error when absent), parse the prefix with Atoi (error when it
fails), and take the suffix verbatim as the local address. -/
def DecodeInitConfig (cs : List Char) : Option InitConfig :=
  match splitFirstColon cs with
  | none => none
  | some p =>
    match goAtoi p.1 with
    | none => none
    | some n => some ⟨n, p.2⟩

/-- Modelled from the spec: a decimal integer text in the sense of the
claim, that is an optional single sign followed by a nonempty digit run,
with no bound on its value. -/
def specDecimalIntegerText (cs : List Char) : Bool :=
  match cs with
  | [] => false
  | c :: rest =>
    if c = '-' ∨ c = '+' then !rest.isEmpty && rest.all isDigitCh
    else (c :: rest).all isDigitCh

/-- Modelled from the spec: the integer denoted by a decimal integer text
(sign applied to the positional value of the digit run). -/
def specTextValue (cs : List Char) : Int :=
  match cs with
  | [] => 0
  | c :: rest =>
    if c = '-' then -(charsToNat rest : Int)
    else if c = '+' then (charsToNat rest : Int)
    else (charsToNat (c :: rest) : Int)

/-- Modelled from the spec: a port text accepted by the decoder, namely a
decimal integer text whose value fits the 64-bit int. -/
def specPortTextOK (cs : List Char) : Bool :=
  specDecimalIntegerText cs && decide (-(2 ^ 63) ≤ specTextValue cs) &&
    decide (specTextValue cs ≤ 2 ^ 63 - 1)

/-- Text before the first colon of the input (the claim's port field). -/
def beforeFirstColon : List Char → List Char
  | [] => []
  | c :: rest => if c = ':' then [] else c :: beforeFirstColon rest

/-- Colon-occurrence test on the input. -/
def containsColon (cs : List Char) : Bool :=
  cs.any fun c => c == ':'

/-! ## PQC TLS wrapper policy (internal/pqctls/pqc_tls_openssl.go) -/

/-- Substring occurrence, as computed by strstr in the C helper: the
pattern occurs as a contiguous run somewhere in the text. -/
def containsSubstr (hay pat : List Char) : Bool :=
  hay.tails.any fun suf => pat.isPrefixOf suf

/-- Group-name acceptance of verify_pqc_algorithms: the C code accepts the
negotiated group name when any of the five strstr probes MLKEM, ML-KEM,
KYBER, mlkem, ml-kem finds a substring occurrence. -/
def pqcGroupNameAccepted (name : List Char) : Bool :=
  containsSubstr name ("MLKEM".toList) || containsSubstr name ("ML-KEM".toList) ||
    containsSubstr name ("KYBER".toList) || containsSubstr name ("mlkem".toList) ||
    containsSubstr name ("ml-kem".toList)

/-- verify_pqc_algorithms embeds the C helper of the same name: it rejects
when SSL_get_negotiated_group reports a non-positive id, rejects when
SSL_get0_group_name returns NULL, and otherwise applies the five substring
probes to the group name. -/
def verify_pqc_algorithms (groupId : Int) (groupName : Option (List Char)) : Bool :=
  if groupId ≤ 0 then false
  else
    match groupName with
    | none => false
    | some s => pqcGroupNameAccepted s

/-- Error text produced by PQCListener.Accept and PQCDialer.Dial when the
handshake succeeded but verify_pqc_algorithms rejected. -/
def pqcRejectReason : List Char :=
  ("handshake succeeded but non-PQC algorithms were negotiated, connection rejected".toList)

/-- Outcome of the post-handshake policy step: the connection is returned
or torn down with a failure reason. -/
inductive HandshakeOutcome where
  | accepted
  | rejected (reason : List Char)
deriving DecidableEq

/-- postHandshakeCheck embeds the step both PQCListener.Accept and
PQCDialer.Dial perform once SSL_accept or SSL_connect has returned a
positive value: verify_pqc_algorithms decides whether the connection is
returned or freed and the dedicated rejection error returned. -/
def postHandshakeCheck (groupId : Int) (groupName : Option (List Char)) : HandshakeOutcome :=
  if verify_pqc_algorithms groupId groupName then .accepted
  else .rejected pqcRejectReason

/-- Modelled from the spec: the anchored pattern of the claim, matching
group names that START with ML-KEM (with or without hyphen, upper or lower
case per the alternation) or KYBER. -/
def matchesAnchoredPQCPattern (name : List Char) : Bool :=
  ("MLKEM".toList).isPrefixOf name || ("ML-KEM".toList).isPrefixOf name ||
    ("mlkem".toList).isPrefixOf name || ("ml-kem".toList).isPrefixOf name ||
    ("KYBER".toList).isPrefixOf name

/-! ## PQC connection Read and Write error mapping -/

/-- OpenSSL error code SSL_ERROR_WANT_READ. -/
def sslErrorWantRead : Nat := 2

/-- OpenSSL error code SSL_ERROR_WANT_WRITE. -/
def sslErrorWantWrite : Nat := 3

/-- OpenSSL error code SSL_ERROR_ZERO_RETURN. -/
def sslErrorZeroReturn : Nat := 6

/-- pqcConnRead embeds the established-connection branch of PQCConn.Read as
a function of the requested buffer length, the value returned by SSL_read
and, when that value is non-positive, the code reported by SSL_get_error:
an empty buffer short-circuits to zero, ZERO_RETURN becomes io.EOF,
WANT_READ and WANT_WRITE return zero bytes with a nil error, any other
code returns a formatted error, and a positive value returns that many
bytes. -/
def pqcConnRead (bufLen : Nat) (sslRet : Int) (errCode : Nat) : Int × Option String :=
  if bufLen = 0 then (0, none)
  else if sslRet ≤ 0 then
    if errCode = sslErrorZeroReturn then (0, some "EOF")
    else if errCode = sslErrorWantRead ∨ errCode = sslErrorWantWrite then (0, none)
    else (0, some ("SSL read error: " ++ toString errCode))
  else (sslRet, none)

/-- pqcConnWrite embeds the established-connection branch of PQCConn.Write,
symmetric to pqcConnRead over SSL_write. -/
def pqcConnWrite (bufLen : Nat) (sslRet : Int) (errCode : Nat) : Int × Option String :=
  if bufLen = 0 then (0, none)
  else if sslRet ≤ 0 then
    if errCode = sslErrorZeroReturn then (0, some "EOF")
    else if errCode = sslErrorWantRead ∨ errCode = sslErrorWantWrite then (0, none)
    else (0, some ("SSL write error: " ++ toString errCode))
  else (sslRet, none)

/-! ## Server public-connection handling order (internal/tunnel)

The two Server.handlePublicConnection implementations are straight-line on
their success path; each is embedded as the sequence of its observable
operations, with the first iteration of the spawned reader task appended in
spawn order: allocate the stream id, write the NEW_CONN frame or store the
socket in the stream map in the order the source performs them, then the
reader task's first socket read and its DATA frame write. -/

/-- Observable operations of a handlePublicConnection success path. -/
inductive PubEvent where
  | alloc
  | storeMap
  | writeNewConn
  | readPublic
  | writeData
deriving DecidableEq, BEq

/-- Operation order of the multi-client Server.handlePublicConnection:
AddUint32, write NEW_CONN, ConnMap.Store, then the reader goroutine reads
the public socket and writes a DATA frame. -/
def multiClientPubTrace : List PubEvent :=
  [.alloc, .writeNewConn, .storeMap, .readPublic, .writeData]

/-- Operation order of the single-client Server.handlePublicConnection:
AddUint32, connMap.Store, write NEW_CONN, then the reader goroutine reads
the public socket and writes a DATA frame. -/
def singleClientPubTrace : List PubEvent :=
  [.alloc, .storeMap, .writeNewConn, .readPublic, .writeData]

/-! ## Stream id allocation (internal/tunnel) -/

/-- allocConnID embeds atomic.AddUint32(&nextConnID, 1): the counter is a
uint32, so the increment is taken modulo two to the thirty-two, and the
new counter value is the allocated id.  Server.registerClient initializes
the counter to zero. -/
def allocConnID (c : Nat) : Nat := (c + 1) % 2 ^ 32

/-! ## Client engine (internal/tunnel/client.go)

The client state visible to the NEW_CONN and CLOSE handlers: whether the
control connection exists, the stream map, the ordered list of frames
written to the control connection, the local sockets closed so far and the
reader tasks started so far.  Sockets are identified by numbers. -/

/-- Client state acted on by the frame handlers. -/
structure ClientState where
  controlConn : Bool
  connMap : List (Nat × Nat)
  sent : List Frame
  closed : List Nat
  readers : List Nat
deriving DecidableEq

/-- Store of a sync.Map: bind the key to the value, replacing any previous
binding. -/
def mapStore (m : List (Nat × Nat)) (k v : Nat) : List (Nat × Nat) :=
  (k, v) :: m.filter fun p => p.1 != k

/-- Delete of a sync.Map: drop any binding of the key. -/
def eraseKey (m : List (Nat × Nat)) (k : Nat) : List (Nat × Nat) :=
  m.filter fun p => p.1 != k

/-- CLOSE frame for a stream id, as built by the sendCloseFrame helpers:
type FrameTypeCLOSE, the stream id, empty payload. -/
def closeFrame (sid : Nat) : Frame :=
  ⟨FrameTypeCLOSE, sid, []⟩

/-- sendCloseFrame embeds Client.sendCloseFrame: when the control
connection exists a CLOSE frame for the stream id is written to it, and
otherwise nothing happens. -/
def sendCloseFrame (st : ClientState) (sid : Nat) : ClientState :=
  if st.controlConn then { st with sent := st.sent ++ [closeFrame sid] } else st

/-- Timeout in seconds passed by Client.handleNewConn to net.DialTimeout. -/
def localDialTimeoutSeconds : Nat := 5

/-- handleNewConn embeds Client.handleNewConn: dial the configured local
address with the five-second timeout; on failure send CLOSE for the stream
id and leave the stream map alone; on success store the stream id bound to
the local socket and start the reader task for it.  The dial is passed in
as a function from address and timeout to an optional socket. -/
def handleNewConn (dial : String → Nat → Option Nat) (localAddr : String)
    (st : ClientState) (sid : Nat) : ClientState :=
  match dial localAddr localDialTimeoutSeconds with
  | none => sendCloseFrame st sid
  | some sock =>
    { st with connMap := mapStore st.connMap sid sock, readers := sid :: st.readers }

/-- handleCloseFrame embeds Client.handleCloseFrame: LoadAndDelete the
stream map entry; when it was present close the local socket and echo a
CLOSE frame for the stream id back to the server, and otherwise do
nothing. -/
def handleCloseFrame (st : ClientState) (sid : Nat) : ClientState :=
  match st.connMap.lookup sid with
  | none => st
  | some sock =>
    sendCloseFrame
      { st with connMap := eraseKey st.connMap sid, closed := sock :: st.closed } sid

/-! ## Theorems -/

theorem isDigitCh_natDigitChar (n : Nat) (h : n < 10) :
    isDigitCh (natDigitChar n) = true := by
  interval_cases n <;> decide

theorem digitVal_natDigitChar (n : Nat) (h : n < 10) :
    digitVal (natDigitChar n) = n := by
  interval_cases n <;> decide

theorem charsToNat_append_digit (xs : List Char) (c : Char) :
    charsToNat (xs ++ [c]) = charsToNat xs * 10 + digitVal c := by
  simp [charsToNat, List.foldl_append]

theorem natToChars_spec (n : Nat) :
    (natToChars n).all isDigitCh = true ∧ natToChars n ≠ [] ∧
    charsToNat (natToChars n) = n := by
  induction n using Nat.strong_induction_on with
  | _ n ih =>
    rw [natToChars]
    by_cases h : n < 10
    · simp only [dif_pos h]
      refine ⟨by simp [isDigitCh_natDigitChar n h], by simp, ?_⟩
      simp [charsToNat, digitVal_natDigitChar n h]
    · simp only [dif_neg h]
      obtain ⟨ihall, ihne, ihval⟩ := ih (n / 10) (Nat.div_lt_self (by omega) (by omega))
      have hm : n % 10 < 10 := Nat.mod_lt n (by omega)
      refine ⟨?_, by simp, ?_⟩
      · simp [List.all_append, ihall, isDigitCh_natDigitChar _ hm]
      · rw [charsToNat_append_digit, ihval, digitVal_natDigitChar _ hm]
        omega

theorem not_colon_of_isDigitCh (c : Char) (h : isDigitCh c = true) : ¬ c = ':' := by
  intro hc
  subst hc
  exact absurd h (by decide)

theorem colon_not_mem_natToChars (n : Nat) : ':' ∉ natToChars n := by
  intro hmem
  obtain ⟨hall, _, _⟩ := natToChars_spec n
  exact not_colon_of_isDigitCh ':' (by
    rw [List.all_eq_true] at hall
    exact hall ':' hmem) rfl

theorem colon_not_mem_intToChars (i : Int) : ':' ∉ intToChars i := by
  rw [intToChars]
  by_cases hi : i < 0
  · rw [if_pos hi]
    intro hmem
    rcases List.mem_cons.mp hmem with hc | hc
    · exact absurd hc (by decide)
    · exact colon_not_mem_natToChars _ hc
  · rw [if_neg hi]
    exact colon_not_mem_natToChars _

theorem splitFirstColon_append (xs ys : List Char) (h : ':' ∉ xs) :
    splitFirstColon (xs ++ ':' :: ys) = some (xs, ys) := by
  induction xs with
  | nil => simp [splitFirstColon]
  | cons c t ih =>
    have hc : ¬ c = ':' := fun hc => h (hc ▸ List.mem_cons_self c t)
    have ht : ':' ∉ t := fun hm => h (List.mem_cons_of_mem c hm)
    simp [splitFirstColon, hc, ih ht]

theorem parseNatDigits_natToChars (n : Nat) :
    parseNatDigits (natToChars n) = some n := by
  obtain ⟨hall, hne, hval⟩ := natToChars_spec n
  have hemp : (natToChars n).isEmpty = false := by
    cases hcs : natToChars n with
    | nil => exact absurd hcs hne
    | cons c t => rfl
  simp [parseNatDigits, hemp, hall, hval]

theorem goAtoi_intToChars (i : Int) (h1 : -(2 ^ 63) ≤ i) (h2 : i ≤ 2 ^ 63 - 1) :
    goAtoi (intToChars i) = some i := by
  by_cases hi : i < 0
  · rw [intToChars, if_pos hi]
    simp only [goAtoi, if_pos rfl, parseNatDigits_natToChars]
    have hle : (-i).toNat ≤ 2 ^ 63 := by omega
    rw [if_pos hle, Int.toNat_of_nonneg (by omega : (0 : Int) ≤ -i)]
    simp
  · rw [intToChars, if_neg hi]
    rcases hcs : natToChars i.toNat with _ | ⟨c, t⟩
    · exact absurd hcs (natToChars_spec i.toNat).2.1
    · have hcd : isDigitCh c = true := by
        have hall := (natToChars_spec i.toNat).1
        rw [hcs, List.all_cons, Bool.and_eq_true] at hall
        exact hall.1
      have hcm : ¬ c = '-' := by intro hc; subst hc; exact absurd hcd (by decide)
      have hcp : ¬ c = '+' := by intro hc; subst hc; exact absurd hcd (by decide)
      simp only [goAtoi, if_neg hcm, if_neg hcp, ← hcs, parseNatDigits_natToChars]
      have hle : i.toNat ≤ 2 ^ 63 - 1 := by omega
      rw [if_pos hle, Int.toNat_of_nonneg (by omega : (0 : Int) ≤ i)]

theorem splitFirstColon_eq_none_iff (cs : List Char) :
    splitFirstColon cs = none ↔ containsColon cs = false := by
  induction cs with
  | nil => simp [splitFirstColon, containsColon]
  | cons c t ih =>
    by_cases hc : c = ':'
    · simp [splitFirstColon, containsColon, hc]
    · cases hs : splitFirstColon t with
      | none =>
        have hct : containsColon t = false := ih.mp hs
        have hcc : containsColon (c :: t) = false := by
          simp only [containsColon, List.any_cons, Bool.or_eq_false_iff, beq_eq_false_iff_ne]
          exact ⟨hc, by simpa [containsColon] using hct⟩
        simp [splitFirstColon, hc, hs, hcc]
      | some p =>
        have hct : containsColon t = true := by
          cases hccc : containsColon t with
          | false => rw [ih.mpr hccc] at hs; exact Option.noConfusion hs
          | true => rfl
        have hcc : containsColon (c :: t) = true := by
          simp only [containsColon, List.any_cons, Bool.or_eq_true]
          exact Or.inr (by simpa [containsColon] using hct)
        simp [splitFirstColon, hc, hs, hcc]

theorem splitFirstColon_fst (cs a b : List Char) (h : splitFirstColon cs = some (a, b)) :
    a = beforeFirstColon cs := by
  induction cs generalizing a b with
  | nil => exact Option.noConfusion h
  | cons c t ih =>
    by_cases hc : c = ':'
    · rw [splitFirstColon, if_pos hc] at h
      obtain ⟨ha, _⟩ := Prod.mk.injEq .. ▸ Option.some.injEq .. ▸ h
      rw [beforeFirstColon, if_pos hc, ← ha]
    · rw [splitFirstColon, if_neg hc] at h
      cases hs : splitFirstColon t with
      | none => rw [hs] at h; exact Option.noConfusion h
      | some p =>
        rw [hs] at h
        obtain ⟨ha, _⟩ := Prod.mk.injEq .. ▸ Option.some.injEq .. ▸ h
        rw [beforeFirstColon, if_neg hc, ← ha, ih p.1 p.2 (by rw [hs])]

theorem parseNatDigits_of_digits (ds : List Char) (hne : ds.isEmpty = false)
    (hall : ds.all isDigitCh = true) :
    parseNatDigits ds = some (charsToNat ds) := by
  simp [parseNatDigits, hne, hall]

theorem goAtoi_of_specOK (cs : List Char) (h : specPortTextOK cs = true) :
    goAtoi cs = some (specTextValue cs) := by
  rw [specPortTextOK, Bool.and_eq_true, Bool.and_eq_true] at h
  obtain ⟨⟨hdec, hlo⟩, hhi⟩ := h
  rw [decide_eq_true_eq] at hlo hhi
  cases cs with
  | nil => exact absurd hdec (by decide)
  | cons c rest =>
    by_cases hcm : c = '-'
    · subst hcm
      rw [specDecimalIntegerText, if_pos (Or.inl rfl), Bool.and_eq_true] at hdec
      have hempf : rest.isEmpty = false := by
        cases hre : rest.isEmpty
        · rfl
        · rw [hre] at hdec; exact absurd hdec.1 (by decide)
      rw [specTextValue, if_pos rfl] at hlo ⊢
      simp only [goAtoi, eq_self_iff_true, if_true,
        parseNatDigits_of_digits rest hempf hdec.2]
      rw [if_pos (by omega : charsToNat rest ≤ 2 ^ 63)]
    · by_cases hcp : c = '+'
      · subst hcp
        rw [specDecimalIntegerText, if_pos (Or.inr rfl), Bool.and_eq_true] at hdec
        have hempf : rest.isEmpty = false := by
          cases hre : rest.isEmpty
          · rfl
          · rw [hre] at hdec; exact absurd hdec.1 (by decide)
        rw [specTextValue, if_neg (by decide), if_pos rfl] at hhi ⊢
        simp only [goAtoi, if_neg (by decide : ¬ ('+' : Char) = '-'), eq_self_iff_true,
          if_true, parseNatDigits_of_digits rest hempf hdec.2]
        rw [if_pos (by omega : charsToNat rest ≤ 2 ^ 63 - 1)]
      · have hns : ¬ (c = '-' ∨ c = '+') := by
          rintro (hc | hc) <;> [exact hcm hc; exact hcp hc]
        rw [specDecimalIntegerText, if_neg hns] at hdec
        rw [specTextValue, if_neg hcm, if_neg hcp] at hhi ⊢
        simp only [goAtoi, if_neg hcm, if_neg hcp,
          parseNatDigits_of_digits (c :: rest) rfl hdec]
        rw [if_pos (by omega : charsToNat (c :: rest) ≤ 2 ^ 63 - 1)]

theorem goAtoi_of_specNotOK (cs : List Char) (h : specPortTextOK cs = false) :
    goAtoi cs = none := by
  cases cs with
  | nil => rfl
  | cons c rest =>
    by_cases hcm : c = '-'
    · subst hcm
      by_cases hemp : rest.isEmpty = true
      · have hnil : rest = [] := by
          cases rest with
          | nil => rfl
          | cons x xs => exact Bool.noConfusion hemp
        subst hnil
        rfl
      · have hempf : rest.isEmpty = false := by
          cases hre : rest.isEmpty
          · rfl
          · exact absurd hre hemp
        by_cases hall : rest.all isDigitCh = true
        · have hdec : specDecimalIntegerText ('-' :: rest) = true := by
            rw [specDecimalIntegerText, if_pos (Or.inl rfl), hempf, hall]
            rfl
          rw [specPortTextOK, hdec, Bool.true_and] at h
          have hgt : ¬ charsToNat rest ≤ 2 ^ 63 := by
            intro hle
            have hck : (decide (-(2 ^ 63) ≤ specTextValue ('-' :: rest)) &&
                decide (specTextValue ('-' :: rest) ≤ 2 ^ 63 - 1)) = true := by
              rw [specTextValue, if_pos rfl]
              simp only [Bool.and_eq_true, decide_eq_true_eq]
              omega
            rw [hck] at h
            exact Bool.noConfusion h
          simp only [goAtoi, eq_self_iff_true, if_true,
            parseNatDigits_of_digits rest hempf hall]
          rw [if_neg hgt]
        · have hallf : rest.all isDigitCh = false := by
            cases hra : rest.all isDigitCh
            · rfl
            · exact absurd hra hall
          have hpn : parseNatDigits rest = none := by
            rw [parseNatDigits, hempf, hallf]
            rfl
          simp only [goAtoi, eq_self_iff_true, if_true, hpn]
    · by_cases hcp : c = '+'
      · subst hcp
        by_cases hemp : rest.isEmpty = true
        · have hnil : rest = [] := by
            cases rest with
            | nil => rfl
            | cons x xs => exact Bool.noConfusion hemp
          subst hnil
          rfl
        · have hempf : rest.isEmpty = false := by
            cases hre : rest.isEmpty
            · rfl
            · exact absurd hre hemp
          by_cases hall : rest.all isDigitCh = true
          · have hdec : specDecimalIntegerText ('+' :: rest) = true := by
              rw [specDecimalIntegerText, if_pos (Or.inr rfl), hempf, hall]
              rfl
            rw [specPortTextOK, hdec, Bool.true_and] at h
            have hgt : ¬ charsToNat rest ≤ 2 ^ 63 - 1 := by
              intro hle
              have hck : (decide (-(2 ^ 63) ≤ specTextValue ('+' :: rest)) &&
                  decide (specTextValue ('+' :: rest) ≤ 2 ^ 63 - 1)) = true := by
                rw [specTextValue, if_neg (by decide), if_pos rfl]
                simp only [Bool.and_eq_true, decide_eq_true_eq]
                omega
              rw [hck] at h
              exact Bool.noConfusion h
            simp only [goAtoi, if_neg (by decide : ¬ ('+' : Char) = '-'), eq_self_iff_true,
              if_true, parseNatDigits_of_digits rest hempf hall]
            rw [if_neg hgt]
          · have hallf : rest.all isDigitCh = false := by
              cases hra : rest.all isDigitCh
              · rfl
              · exact absurd hra hall
            have hpn : parseNatDigits rest = none := by
              rw [parseNatDigits, hempf, hallf]
              rfl
            simp only [goAtoi, if_neg (by decide : ¬ ('+' : Char) = '-'), eq_self_iff_true,
              if_true, hpn]
      · have hns : ¬ (c = '-' ∨ c = '+') := by
          rintro (hc | hc) <;> [exact hcm hc; exact hcp hc]
        by_cases hall : (c :: rest).all isDigitCh = true
        · have hdec : specDecimalIntegerText (c :: rest) = true := by
            rw [specDecimalIntegerText, if_neg hns]
            exact hall
          rw [specPortTextOK, hdec, Bool.true_and] at h
          have hgt : ¬ charsToNat (c :: rest) ≤ 2 ^ 63 - 1 := by
            intro hle
            have hck : (decide (-(2 ^ 63) ≤ specTextValue (c :: rest)) &&
                decide (specTextValue (c :: rest) ≤ 2 ^ 63 - 1)) = true := by
              rw [specTextValue, if_neg hcm, if_neg hcp]
              simp only [Bool.and_eq_true, decide_eq_true_eq]
              omega
            rw [hck] at h
            exact Bool.noConfusion h
          simp only [goAtoi, if_neg hcm, if_neg hcp,
            parseNatDigits_of_digits (c :: rest) rfl hall]
          rw [if_neg hgt]
        · have hallf : (c :: rest).all isDigitCh = false := by
            cases hra : (c :: rest).all isDigitCh
            · rfl
            · exact absurd hra hall
          have hpn : parseNatDigits (c :: rest) = none := by
            rw [parseNatDigits, hallf]
            rfl
          simp only [goAtoi, if_neg hcm, if_neg hcp, hpn]

theorem fromBe32_be32 (n : Nat) (h : n < 2 ^ 32) :
    fromBe32 (n / 2 ^ 24 % 256) (n / 2 ^ 16 % 256) (n / 2 ^ 8 % 256) (n % 256) = n := by
  simp only [fromBe32]
  omega

theorem be32_fromBe32 (b0 b1 b2 b3 : Nat) (h0 : b0 < 256) (h1 : b1 < 256)
    (h2 : b2 < 256) (h3 : b3 < 256) :
    be32 (fromBe32 b0 b1 b2 b3) = [b0, b1, b2, b3] := by
  simp only [be32, fromBe32, List.cons.injEq, and_true]
  omega

theorem decode_encode (f : Frame) (hty : f.ty < 256) (hcid : f.connID < 2 ^ 32)
    (hlen : f.payload.length < 2 ^ 32) :
    DecodeFrame (EncodeFrame f) = some (f, []) := by
  simp only [EncodeFrame, be32, List.cons_append, List.nil_append, DecodeFrame]
  rw [fromBe32_be32 f.payload.length hlen, fromBe32_be32 f.connID hcid]
  simp [Nat.mod_eq_of_lt hty]

theorem encode_decode (b : List Nat) (f : Frame) (rest : List Nat)
    (hb : ∀ x ∈ b, x < 256) (hdec : DecodeFrame b = some (f, rest)) :
    EncodeFrame f ++ rest = b := by
  rcases b with _ | ⟨t, _ | ⟨a0, _ | ⟨a1, _ | ⟨a2, _ | ⟨a3, _ | ⟨l0, _ | ⟨l1, _ | ⟨l2, _ |
    ⟨l3, tail⟩⟩⟩⟩⟩⟩⟩⟩⟩ <;> simp only [DecodeFrame] at hdec <;>
    try exact Option.noConfusion hdec
  have ht : t < 256 := hb t (by simp)
  have ha0 : a0 < 256 := hb a0 (by simp)
  have ha1 : a1 < 256 := hb a1 (by simp)
  have ha2 : a2 < 256 := hb a2 (by simp)
  have ha3 : a3 < 256 := hb a3 (by simp)
  have hl0 : l0 < 256 := hb l0 (by simp)
  have hl1 : l1 < 256 := hb l1 (by simp)
  have hl2 : l2 < 256 := hb l2 (by simp)
  have hl3 : l3 < 256 := hb l3 (by simp)
  by_cases hple : fromBe32 l0 l1 l2 l3 ≤ tail.length
  · rw [if_pos hple] at hdec
    obtain ⟨hf, hrest⟩ := Prod.mk.injEq .. ▸ Option.some.injEq .. ▸ hdec
    subst hf hrest
    simp only [EncodeFrame, List.length_take, Nat.min_eq_left hple,
      be32_fromBe32 a0 a1 a2 a3 ha0 ha1 ha2 ha3,
      be32_fromBe32 l0 l1 l2 l3 hl0 hl1 hl2 hl3,
      Nat.mod_eq_of_lt ht]
    simp [List.take_append_drop]
  · rw [if_neg hple] at hdec
    exact absurd hdec (by simp)

/-- C2: for every well-formed frame, decoding the encoding yields the frame
back with nothing left over; and for every byte sequence beginning with a
valid complete frame, re-encoding the decoded frame reproduces exactly the
consumed prefix, with the remainder unconsumed. -/
theorem frame_codec_roundtrip :
    (∀ f : Frame, f.ty < 256 → f.connID < 2 ^ 32 → f.payload.length < 2 ^ 32 →
        DecodeFrame (EncodeFrame f) = some (f, [])) ∧
    (∀ (b : List Nat) (f : Frame) (rest : List Nat), (∀ x ∈ b, x < 256) →
        DecodeFrame b = some (f, rest) → EncodeFrame f ++ rest = b) :=
  ⟨decode_encode, encode_decode⟩

/-- Witness for C2 at a concrete frame and a concrete byte sequence. -/
theorem frame_codec_roundtrip_witness :
    DecodeFrame (EncodeFrame ⟨2, 7, [72, 105]⟩) = some (⟨2, 7, [72, 105]⟩, []) ∧
    EncodeFrame ⟨2, 7, [72, 105]⟩ ++ [9] = [2, 0, 0, 0, 7, 0, 0, 0, 2, 72, 105, 9] :=
  ⟨frame_codec_roundtrip.1 ⟨2, 7, [72, 105]⟩ (by decide) (by decide) (by decide),
   frame_codec_roundtrip.2 [2, 0, 0, 0, 7, 0, 0, 0, 2, 72, 105, 9] ⟨2, 7, [72, 105]⟩ [9]
     (by decide) (by decide)⟩

/-- C3: for every frame with payload length at most two to the thirty-two
minus one, the encoding is one contiguous sequence of length nine plus the
payload length: the type byte, the big-endian stream id, the big-endian
payload length, then exactly the payload bytes and nothing else. -/
theorem encode_frame_layout :
    ∀ f : Frame, f.ty < 256 → f.connID < 2 ^ 32 → f.payload.length < 2 ^ 32 →
      (EncodeFrame f).length = 9 + f.payload.length ∧
      EncodeFrame f = f.ty :: (be32 f.connID ++ be32 f.payload.length ++ f.payload) ∧
      ((EncodeFrame f).drop 1).take 4 = be32 f.connID ∧
      ((EncodeFrame f).drop 5).take 4 = be32 f.payload.length ∧
      (EncodeFrame f).drop 9 = f.payload := by
  intro f hty hcid hlen
  refine ⟨by simp [EncodeFrame, be32]; omega, ?_, ?_, ?_, ?_⟩ <;>
    simp [EncodeFrame, be32, Nat.mod_eq_of_lt hty]

/-- Witness for C3 at a concrete frame. -/
theorem encode_frame_layout_witness :
    (EncodeFrame ⟨1, 5, [10]⟩).length = 9 + 1 ∧
    EncodeFrame ⟨1, 5, [10]⟩ = 1 :: (be32 5 ++ be32 1 ++ [10]) := by
  have h := encode_frame_layout ⟨1, 5, [10]⟩ (by decide) (by decide) (by decide)
  exact ⟨h.1, h.2.1⟩

theorem colon_not_mem_of_specDecimal (ds : List Char)
    (h : specDecimalIntegerText ds = true) : ':' ∉ ds := by
  cases ds with
  | nil => simp
  | cons c rest =>
    intro hmem
    rw [specDecimalIntegerText] at h
    by_cases hcs : c = '-' ∨ c = '+'
    · rw [if_pos hcs, Bool.and_eq_true] at h
      rcases List.mem_cons.mp hmem with hc | hc
      · rcases hcs with h2 | h2 <;> subst h2 <;> exact absurd hc (by decide)
      · exact absurd ((List.all_eq_true.mp h.2) ':' hc) (by decide)
    · rw [if_neg hcs] at h
      exact absurd ((List.all_eq_true.mp h) ':' hmem) (by decide)

/-- C7 counterexample: the input whose port field is the decimal text of
two to the sixty-three (one past the largest 64-bit int) contains a colon
and its prefix is a decimal integer, yet DecodeInitConfig fails, because
strconv.Atoi reports a range error; the claim that decoding fails exactly
when the input has no colon or a non-decimal prefix is therefore false of
the code. -/
theorem initconfig_failure_counterexample :
    DecodeInitConfig ("9223372036854775808:x".toList) = none ∧
    containsColon ("9223372036854775808:x".toList) = true ∧
    specDecimalIntegerText (beforeFirstColon ("9223372036854775808:x".toList)) = true := by
  decide

/-- C7 amended: EncodeInitConfig produces the decimal port, one colon, then
the local address verbatim, and DecodeInitConfig splits only at the first
colon, so decoding the encoding restores every InitConfig whose port is a
64-bit int, colons in the local address included; and DecodeInitConfig
fails exactly when the input contains no colon or the text before the
first colon is not a decimal integer representable in the 64-bit int. -/
theorem initconfig_roundtrip_amended :
    (∀ c : InitConfig, -(2 ^ 63) ≤ c.remotePort → c.remotePort ≤ 2 ^ 63 - 1 →
        DecodeInitConfig (EncodeInitConfig c) = some c) ∧
    (∀ cs : List Char,
        DecodeInitConfig cs = none ↔
          containsColon cs = false ∨ specPortTextOK (beforeFirstColon cs) = false) := by
  constructor
  · intro c h1 h2
    have hsplit := splitFirstColon_append (intToChars c.remotePort) c.localAddr
      (colon_not_mem_intToChars c.remotePort)
    simp only [DecodeInitConfig, EncodeInitConfig, hsplit,
      goAtoi_intToChars c.remotePort h1 h2]
  · intro cs
    cases hs : splitFirstColon cs with
    | none =>
      have hcc : containsColon cs = false := (splitFirstColon_eq_none_iff cs).mp hs
      simp [DecodeInitConfig, hs, hcc]
    | some p =>
      have hcc : containsColon cs = true := by
        cases hc2 : containsColon cs with
        | false =>
          rw [(splitFirstColon_eq_none_iff cs).mpr hc2] at hs
          exact Option.noConfusion hs
        | true => rfl
      have hfst : p.1 = beforeFirstColon cs := splitFirstColon_fst cs p.1 p.2 (by rw [hs])
      cases hok : specPortTextOK p.1 with
      | true => simp [DecodeInitConfig, hs, goAtoi_of_specOK p.1 hok, hcc, ← hfst, hok]
      | false => simp [DecodeInitConfig, hs, goAtoi_of_specNotOK p.1 hok, hcc, ← hfst, hok]

/-- Witness for the amended C7 at a port above the u16 range and a local
address containing a colon. -/
theorem initconfig_roundtrip_witness :
    DecodeInitConfig (EncodeInitConfig ⟨70000, "127.0.0.1:80".toList⟩) =
      some ⟨70000, "127.0.0.1:80".toList⟩ :=
  initconfig_roundtrip_amended.1 ⟨70000, "127.0.0.1:80".toList⟩ (by decide) (by decide)

/-- C10 counterexample: the input whose port field is the decimal text of
two to the sixty-four is of the form of a decimal integer followed by a
colon and a remainder, yet DecodeInitConfig fails (strconv.Atoi range
error), so decoding does not succeed for EVERY decimal integer. -/
theorem decode_port_overflow_counterexample :
    DecodeInitConfig ("18446744073709551616:x".toList) = none ∧
    specDecimalIntegerText ("18446744073709551616".toList) = true := by
  decide

/-- C10 amended: DecodeInitConfig performs no range validation against the
u16 port type: for every input whose prefix before the first colon is a
decimal integer representable in the 64-bit int, including negative values
and values exceeding 65535, decoding succeeds and returns exactly that
integer as RemotePort, with the remainder as the local address. -/
theorem decode_port_no_range_check :
    ∀ (ds rest : List Char), specDecimalIntegerText ds = true →
      -(2 ^ 63) ≤ specTextValue ds → specTextValue ds ≤ 2 ^ 63 - 1 →
      DecodeInitConfig (ds ++ ':' :: rest) = some ⟨specTextValue ds, rest⟩ := by
  intro ds rest hdec h1 h2
  have hok : specPortTextOK ds = true := by
    rw [specPortTextOK, hdec, Bool.true_and, Bool.and_eq_true]
    exact ⟨decide_eq_true h1, decide_eq_true h2⟩
  have hsplit := splitFirstColon_append ds rest (colon_not_mem_of_specDecimal ds hdec)
  simp only [DecodeInitConfig, hsplit, goAtoi_of_specOK ds hok]

/-- Witness for the amended C10 at the ports 70000 (beyond u16) and -1
(negative). -/
theorem decode_port_no_range_check_witness :
    DecodeInitConfig ("70000".toList ++ ':' :: "x".toList) =
      some ⟨specTextValue ("70000".toList), "x".toList⟩ ∧
    DecodeInitConfig ("-1".toList ++ ':' :: "x".toList) =
      some ⟨specTextValue ("-1".toList), "x".toList⟩ :=
  ⟨decode_port_no_range_check ("70000".toList) ("x".toList) (by decide) (by decide)
     (by decide),
   decode_port_no_range_check ("-1".toList) ("x".toList) (by decide) (by decide)
     (by decide)⟩

/-- C1 counterexample: the hybrid group name X25519MLKEM768 is accepted by
verify_pqc_algorithms (strstr finds MLKEM as a substring), so the
connection is returned to the caller, yet the name does not match the
claim's anchored pattern, which requires the name to START with an ML-KEM
or KYBER alternative.  The claim that the connection is returned only for
anchored matches is therefore false of the code. -/
theorem pqc_anchored_pattern_counterexample :
    verify_pqc_algorithms 1 (some ("X25519MLKEM768".toList)) = true ∧
    matchesAnchoredPQCPattern ("X25519MLKEM768".toList) = false ∧
    postHandshakeCheck 1 (some ("X25519MLKEM768".toList)) = HandshakeOutcome.accepted := by
  decide

/-- C1 amended: after a successful handshake the connection is returned to
the caller exactly when the negotiated group id is positive, the group name
is available and the name CONTAINS one of the substrings MLKEM, ML-KEM,
KYBER, mlkem, ml-kem; in every other case the connection is torn down and
the operation fails with the fixed rejection reason, whose text contains
the words non-PQC algorithms were negotiated. -/
theorem pqc_policy_amended :
    ∀ (g : Int) (name : Option (List Char)),
      (postHandshakeCheck g name = HandshakeOutcome.accepted ↔
        0 < g ∧ ∃ s, name = some s ∧ pqcGroupNameAccepted s = true) ∧
      (postHandshakeCheck g name = HandshakeOutcome.accepted ∨
        postHandshakeCheck g name = HandshakeOutcome.rejected pqcRejectReason) ∧
      containsSubstr pqcRejectReason ("non-PQC algorithms were negotiated".toList) = true := by
  intro g name
  refine ⟨?_, ?_, by decide⟩
  · cases name with
    | none => simp [postHandshakeCheck, verify_pqc_algorithms]
    | some s =>
      by_cases hg : g ≤ 0 <;>
        simp [postHandshakeCheck, verify_pqc_algorithms, hg]
      omega
  · by_cases hv : verify_pqc_algorithms g name <;> simp [postHandshakeCheck, hv]

/-- C4 counterexample: with a 4096-byte buffer requested and SSL_read or
SSL_write reporting a transient want (SSL_ERROR_WANT_READ or
SSL_ERROR_WANT_WRITE), PQCConn.Read and PQCConn.Write return zero bytes
with a nil error: the call reports success while having transferred none
of the requested bytes, and no internal retry occurs.  The claim that a
transient want is retried internally and never surfaced is therefore false
of the code. -/
theorem transient_want_surfaced_counterexample :
    pqcConnRead 4096 0 sslErrorWantRead = (0, none) ∧
    pqcConnWrite 4096 0 sslErrorWantWrite = (0, none) := by
  decide

/-- C4 amended: on a transient want-read or want-write, Read and Write do
not retry inside the call: they return zero bytes with a nil error,
leaving the retry to the caller; SSL_ERROR_ZERO_RETURN is surfaced as EOF,
and every other failure code is surfaced as an error. -/
theorem pqc_io_error_mapping_amended :
    ∀ (bufLen : Nat) (ret : Int) (e : Nat), 0 < bufLen → ret ≤ 0 →
      ((e = sslErrorWantRead ∨ e = sslErrorWantWrite) →
        pqcConnRead bufLen ret e = (0, none) ∧ pqcConnWrite bufLen ret e = (0, none)) ∧
      (e = sslErrorZeroReturn →
        pqcConnRead bufLen ret e = (0, some "EOF") ∧
        pqcConnWrite bufLen ret e = (0, some "EOF")) ∧
      (e ≠ sslErrorWantRead → e ≠ sslErrorWantWrite → e ≠ sslErrorZeroReturn →
        (pqcConnRead bufLen ret e).2.isSome = true ∧
        (pqcConnWrite bufLen ret e).2.isSome = true) := by
  intro bufLen ret e hbuf hret
  have hb : ¬ bufLen = 0 := by omega
  refine ⟨?_, ?_, ?_⟩
  · rintro (he | he) <;> subst he <;>
      simp [pqcConnRead, pqcConnWrite, hb, hret, sslErrorWantRead, sslErrorWantWrite,
        sslErrorZeroReturn]
  · rintro he
    subst he
    simp [pqcConnRead, pqcConnWrite, hb, hret, sslErrorZeroReturn]
  · intro h2 h3 h6
    simp [pqcConnRead, pqcConnWrite, hb, hret, h2, h3, h6]

/-- Witness for the amended C4 at a concrete non-transient error code. -/
theorem pqc_io_error_mapping_witness :
    (pqcConnRead 4096 0 5).2.isSome = true ∧ (pqcConnWrite 4096 0 5).2.isSome = true :=
  (pqc_io_error_mapping_amended 4096 0 5 (by decide) (by decide)).2.2
    (by decide) (by decide) (by decide)

/-- C5 counterexample: in the single-client Server.handlePublicConnection
the stream-map store happens BEFORE the NEW_CONN write, so the claim that
the insert occurs after writing NEW_CONN fails on that code path. -/
theorem newconn_ordering_counterexample :
    ¬ (singleClientPubTrace.indexOf PubEvent.writeNewConn <
        singleClientPubTrace.indexOf PubEvent.storeMap) := by
  decide

/-- C5 amended: in the multi-client engine the stream-map insert follows
the NEW_CONN write, while in the single-client engine it precedes it; in
both engines the socket is in the map before the server's first read from
it, and the NEW_CONN write precedes any DATA write for the stream, so on
the wire NEW_CONN strictly precedes any DATA frame of that stream. -/
theorem newconn_ordering_amended :
    multiClientPubTrace.indexOf PubEvent.writeNewConn <
      multiClientPubTrace.indexOf PubEvent.storeMap ∧
    singleClientPubTrace.indexOf PubEvent.storeMap <
      singleClientPubTrace.indexOf PubEvent.writeNewConn ∧
    multiClientPubTrace.indexOf PubEvent.storeMap <
      multiClientPubTrace.indexOf PubEvent.readPublic ∧
    singleClientPubTrace.indexOf PubEvent.storeMap <
      singleClientPubTrace.indexOf PubEvent.readPublic ∧
    multiClientPubTrace.indexOf PubEvent.writeNewConn <
      multiClientPubTrace.indexOf PubEvent.writeData ∧
    singleClientPubTrace.indexOf PubEvent.writeNewConn <
      singleClientPubTrace.indexOf PubEvent.writeData := by
  decide

theorem allocConnID_iterate (k : Nat) : allocConnID^[k] 0 = k % 2 ^ 32 := by
  induction k with
  | zero => simp
  | succ k ih =>
    rw [Function.iterate_succ_apply', ih, allocConnID]
    omega

/-- C6 counterexample: the allocation counter is a uint32, so the
increment wraps: starting from zero, the allocation number two to the
thirty-two yields the id zero, while the one before yields the maximal id;
ids are therefore neither strictly increasing forever nor always nonzero. -/
theorem stream_id_wraparound_counterexample :
    allocConnID^[2 ^ 32] 0 = 0 ∧ allocConnID^[2 ^ 32 - 1] 0 = 2 ^ 32 - 1 := by
  refine ⟨?_, ?_⟩ <;> rw [allocConnID_iterate] <;> omega

/-- C6 amended: the counter starts at zero and each allocation returns the
counter incremented modulo two to the thirty-two; the first allocated id is
one, and for the first two-to-the-thirty-two-minus-one allocations the ids
equal the allocation ordinal, hence are strictly increasing and never
zero; the allocator only produces zero when the counter wraps at the
two-to-the-thirty-second allocation. -/
theorem stream_id_alloc_amended :
    allocConnID^[1] 0 = 1 ∧
    (∀ k, k < 2 ^ 32 → allocConnID^[k] 0 = k) ∧
    (∀ j k, j < k → k < 2 ^ 32 → allocConnID^[j] 0 < allocConnID^[k] 0) ∧
    (∀ k, 0 < k → k < 2 ^ 32 → allocConnID^[k] 0 ≠ 0) := by
  have hbase : ∀ k, k < 2 ^ 32 → allocConnID^[k] 0 = k := by
    intro k hk
    rw [allocConnID_iterate]
    omega
  refine ⟨by rw [allocConnID_iterate]; omega, hbase, ?_, ?_⟩
  · intro j k hjk hk
    rw [hbase j (by omega), hbase k hk]
    exact hjk
  · intro k hk0 hk
    rw [hbase k hk]
    omega

/-- Witness for the amended C6 at concrete allocation ordinals. -/
theorem stream_id_alloc_witness :
    allocConnID^[3] 0 = 3 ∧ allocConnID^[2] 0 < allocConnID^[3] 0 ∧
    allocConnID^[3] 0 ≠ 0 :=
  ⟨stream_id_alloc_amended.2.1 3 (by decide),
   stream_id_alloc_amended.2.2.1 2 3 (by decide) (by decide),
   stream_id_alloc_amended.2.2.2 3 (by decide) (by decide)⟩

theorem lookup_mapStore (m : List (Nat × Nat)) (k v : Nat) :
    (mapStore m k v).lookup k = some v := by
  simp [mapStore, List.lookup]

theorem lookup_cons_of_ne (a k v : Nat) (t : List (Nat × Nat)) (h : ¬ a = k) :
    ((a, v) :: t).lookup k = t.lookup k := by
  have hk : (k == a) = false := by simpa using Ne.symm h
  simp [List.lookup, hk]

theorem lookup_eraseKey (m : List (Nat × Nat)) (k : Nat) :
    (eraseKey m k).lookup k = none := by
  induction m with
  | nil => rfl
  | cons p t ih =>
    obtain ⟨a, b⟩ := p
    by_cases h : a = k
    · simpa [eraseKey, List.filter_cons, h] using ih
    · rw [show eraseKey ((a, b) :: t) k = (a, b) :: eraseKey t k from by
        simp [eraseKey, List.filter_cons, h], lookup_cons_of_ne a k b _ h]
      exact ih

/-- C8: on a NEW_CONN frame the client dials the configured local address
with the five-second timeout; when the dial fails it sends CLOSE for the
stream id, inserts nothing into its stream map and starts no reader; when
the dial succeeds it binds the stream id to the local socket in the map,
writes nothing, and starts the reader task for that socket. -/
theorem client_newconn_handling :
    localDialTimeoutSeconds = 5 ∧
    (∀ (dial : String → Nat → Option Nat) (localAddr : String) (st : ClientState) (sid : Nat),
      st.controlConn = true →
      (dial localAddr localDialTimeoutSeconds = none →
        (handleNewConn dial localAddr st sid).connMap = st.connMap ∧
        (handleNewConn dial localAddr st sid).sent = st.sent ++ [closeFrame sid] ∧
        (handleNewConn dial localAddr st sid).readers = st.readers) ∧
      (∀ sock, dial localAddr localDialTimeoutSeconds = some sock →
        ((handleNewConn dial localAddr st sid).connMap).lookup sid = some sock ∧
        (handleNewConn dial localAddr st sid).sent = st.sent ∧
        (handleNewConn dial localAddr st sid).readers = sid :: st.readers)) := by
  refine ⟨rfl, ?_⟩
  intro dial localAddr st sid hctl
  constructor
  · intro hdial
    simp [handleNewConn, hdial, sendCloseFrame, hctl]
  · intro sock hdial
    simp [handleNewConn, hdial, lookup_mapStore]

/-- Witness for C8 at a concrete state, a failing dial and a succeeding
dial. -/
theorem client_newconn_handling_witness :
    (handleNewConn (fun _ _ => none) "127.0.0.1:80" ⟨true, [], [], [], []⟩ 1).sent =
      [] ++ [closeFrame 1] ∧
    ((handleNewConn (fun _ _ => some 42) "127.0.0.1:80" ⟨true, [], [], [], []⟩ 1).connMap).lookup
      1 = some 42 :=
  ⟨((client_newconn_handling.2 (fun _ _ => none) "127.0.0.1:80"
      ⟨true, [], [], [], []⟩ 1 rfl).1 rfl).2.1,
   ((client_newconn_handling.2 (fun _ _ => some 42) "127.0.0.1:80"
      ⟨true, [], [], [], []⟩ 1 rfl).2 42 rfl).1⟩

/-- C9: on a CLOSE frame whose stream id is bound in the client's stream
map, the client removes the entry, closes the local socket and echoes a
CLOSE frame for that stream id back to the server. -/
theorem client_close_echo :
    ∀ (st : ClientState) (sid sock : Nat), st.controlConn = true →
      (st.connMap).lookup sid = some sock →
      ((handleCloseFrame st sid).connMap).lookup sid = none ∧
      (handleCloseFrame st sid).connMap = eraseKey st.connMap sid ∧
      (handleCloseFrame st sid).closed = sock :: st.closed ∧
      (handleCloseFrame st sid).sent = st.sent ++ [closeFrame sid] := by
  intro st sid sock hctl hlook
  simp [handleCloseFrame, hlook, sendCloseFrame, hctl, lookup_eraseKey]

/-- Witness for C9 at a concrete state holding one stream. -/
theorem client_close_echo_witness :
    ((handleCloseFrame ⟨true, [(7, 99)], [], [], []⟩ 7).connMap).lookup 7 = none ∧
    (handleCloseFrame ⟨true, [(7, 99)], [], [], []⟩ 7).closed = 99 :: [] ∧
    (handleCloseFrame ⟨true, [(7, 99)], [], [], []⟩ 7).sent = [] ++ [closeFrame 7] :=
  ⟨(client_close_echo ⟨true, [(7, 99)], [], [], []⟩ 7 99 rfl rfl).1,
   (client_close_echo ⟨true, [(7, 99)], [], [], []⟩ 7 99 rfl rfl).2.2.1,
   (client_close_echo ⟨true, [(7, 99)], [], [], []⟩ 7 99 rfl rfl).2.2.2⟩

end NgpMtls
